/-
Verification development for the chungju-road recommendation engine
(src/recommender.py).

The engine's data model and operations are shallowly embedded:
  * a rating record (user_id, item_id, rating) becomes `Rating` with the
    rating as an exact rational;
  * a pandas DataFrame holding the item similarity matrix becomes
    `SimMatrix`: a list of index labels plus a score function
    (`df[c]` column access reads `score i c` at row label `i`);
  * the Python dict used as candidate-score accumulator becomes an
    insertion-ordered association list (`updateScore` keeps an existing
    key's position and appends a fresh key, as CPython dicts do);
  * pandas `sort_values(ascending=False)` / Python `sorted(reverse=True)`
    become `List.insertionSort` with a descending relation on the score
    component; label sorting in `pivot_table` becomes `List.insertionSort`
    on strings;
  * `sklearn.metrics.pairwise.cosine_similarity` becomes `cosineSim`
    over the exact rationals of the pivoted item-user matrix, with
    sklearn's zero-norm convention (a zero-norm row is left unnormalised,
    so every similarity involving it is 0).
-/
import Mathlib

namespace ChungjuRoad

/-- One row of the rating table: (user_id, item_id, rating). -/
structure Rating where
  user : String
  item : String
  rating : ℚ
deriving DecidableEq, Repr

/-- Auxiliary recursion for `uniqueFirst`, carrying the set of labels
already emitted.  Structural recursion so the kernel can evaluate it. -/
def uniqueFirstAux (seen : List String) : List String → List String
  | [] => []
  | x :: rest =>
    if x ∈ seen then uniqueFirstAux seen rest
    else x :: uniqueFirstAux (x :: seen) rest

/-- Model of pandas `Series.unique()`: deduplicate keeping the first
occurrence of each label, preserving first-occurrence order. -/
def uniqueFirst (l : List String) : List String :=
  uniqueFirstAux [] l

/-- Model of pandas label sorting (`pivot_table` sorts row and column
labels ascending). -/
def sortStr (l : List String) : List String :=
  l.insertionSort (fun a b => a ≤ b)

/-- Descending order on score pairs: `p` precedes `q` when `q`'s score is
at most `p`'s.  Used to model `sort_values(ascending=False)` and
`sorted(..., key=score, reverse=True)`; `List.insertionSort` with this
relation is stable, matching Python's stable sort. -/
def descRel {α : Type} [LinearOrder α] (p q : String × α) : Prop :=
  q.2 ≤ p.2

instance {α : Type} [LinearOrder α] : DecidableRel (descRel (α := α)) :=
  fun p q => inferInstanceAs (Decidable (q.2 ≤ p.2))

/-- Sort labelled scores descending by score (stable). -/
def sortPairsDesc {α : Type} [LinearOrder α] (l : List (String × α)) :
    List (String × α) :=
  l.insertionSort descRel

/-- The item similarity matrix as the query functions see it: a pandas
DataFrame with row/column labels `index` and entries `score i j` at row
`i`, column `j`. -/
structure SimMatrix (α : Type) where
  index : List String
  score : String → String → α

/-- Embedding of `recommend_items` (src/recommender.py lines 44-62):
if the target is absent from the matrix index return `[]`; otherwise take
the target's column, drop the target's own row, sort descending by
similarity and return the first `top_n` labels. -/
def recommend_items {α : Type} [LinearOrder α]
    (target : String) (M : SimMatrix α) (top_n : ℕ) : List String :=
  if target ∈ M.index then
    let simScores := M.index.map (fun i => (i, M.score i target))
    let dropped := simScores.filter (fun p => p.1 ≠ target)
    ((sortPairsDesc dropped).take top_n).map Prod.fst
  else []

/-- Read a key's accumulated score from the association list, defaulting
to 0 (`candidate_scores.get(item_id, 0)`). -/
def getScore {α : Type} [AddCommMonoid α] :
    List (String × α) → String → α
  | [], _ => 0
  | p :: rest, c => if p.1 = c then p.2 else getScore rest c

/-- Model of `candidate_scores[item_id] = candidate_scores.get(item_id, 0)
+ sim_score` on a CPython dict: an existing key is updated in place, a
fresh key is appended. -/
def updateScore {α : Type} [AddCommMonoid α] :
    List (String × α) → String → α → List (String × α)
  | [], k, v => [(k, 0 + v)]
  | p :: rest, k, v =>
    if p.1 = k then (p.1, p.2 + v) :: rest
    else p :: updateScore rest k v

/-- Accumulate a list of (item, score) contributions into the candidate
dict, in order. -/
def accumulate {α : Type} [AddCommMonoid α]
    (sc : List (String × α)) (contribs : List (String × α)) :
    List (String × α) :=
  contribs.foldl (fun s p => updateScore s p.1 p.2) sc

/-- One favourite's contribution list (src/recommender.py lines 89-92):
the favourite's column, sorted descending, with the favourite's own row
dropped. -/
def favContribution {α : Type} [LinearOrder α]
    (M : SimMatrix α) (fav : String) : List (String × α) :=
  (sortPairsDesc (M.index.map (fun i => (i, M.score i fav)))).filter
    (fun p => p.1 ≠ fav)

/-- The candidate-score accumulator after the favourites loop
(src/recommender.py lines 85-96): favourites absent from the matrix index
are skipped, the rest have their contribution lists accumulated. -/
def candidateScores {α : Type} [LinearOrder α] [AddCommMonoid α]
    (M : SimMatrix α) (favs : List String) : List (String × α) :=
  favs.foldl
    (fun sc fav =>
      if fav ∈ M.index then accumulate sc (favContribution M fav) else sc)
    []

/-- The target user's rows of the rating table
(`ratings_df[ratings_df["user_id"] == target_user_id]`). -/
def userRatingsOf (table : List Rating) (user : String) : List Rating :=
  table.filter (fun r => r.user = user)

/-- The user's favourites: item ids rated at least 4.0, deduplicated in
first-occurrence order (src/recommender.py line 82). -/
def favoritesOf (table : List Rating) (user : String) : List String :=
  uniqueFirst (((userRatingsOf table user).filter
    (fun r => 4 ≤ r.rating)).map Rating.item)

/-- Deletion of already-rated items from the candidate dict
(src/recommender.py lines 99-102): `del candidate_scores[item_id]`
guarded by a membership test. -/
def removeRated {α : Type} [AddCommMonoid α]
    (sc : List (String × α)) (rated : List String) : List (String × α) :=
  rated.foldl
    (fun s i =>
      if i ∈ s.map Prod.fst then s.filter (fun p => p.1 ≠ i) else s)
    sc

/-- Embedding of `recommend_for_user` (src/recommender.py lines 65-108). -/
def recommend_for_user {α : Type} [LinearOrder α] [AddCommMonoid α]
    (user : String) (table : List Rating) (M : SimMatrix α)
    (top_n : ℕ) : List String :=
  let ur := userRatingsOf table user
  if ur.isEmpty then []
  else
    let scores := candidateScores M (favoritesOf table user)
    let remaining := removeRated scores (uniqueFirst (ur.map Rating.item))
    ((sortPairsDesc remaining).take top_n).map Prod.fst

/-- One record of the travel metadata catalog, minimally
`{id, title, description}` (§3 of the data model). -/
structure ItemInfo where
  id : String
  title : String
  description : String
deriving DecidableEq, Repr

/-- The metadata catalog: category label → ordered list of item records,
in catalog (JSON object) iteration order. -/
def TravelMeta : Type := List (String × List ItemInfo)

/-- Embedding of `get_item_metadata` (src/recommender.py lines 111-121):
scan categories in catalog order, inside each category scan records in
order, return the first record whose `id` field matches, else `none`. -/
def get_item_metadata (item_id : String) : TravelMeta → Option ItemInfo
  | [] => none
  | c :: rest =>
    match c.2.find? (fun it => it.id == item_id) with
    | some it => some it
    | none => get_item_metadata item_id rest

/-- Embedding of `get_items_info` (src/recommender.py lines 124-133):
resolve each id in order, appending only the found records. -/
def get_items_info (item_ids : List String) (meta : TravelMeta) :
    List ItemInfo :=
  item_ids.foldl
    (fun results iid =>
      match get_item_metadata iid meta with
      | some info => results ++ [info]
      | none => results)
    []

/-- All catalog records in catalog iteration order (categories in order,
records in order inside each category). -/
def allCatalogItems : TravelMeta → List ItemInfo
  | [] => []
  | c :: rest => c.2 ++ allCatalogItems rest

/-- Errors of the external input layer: `FileNotFoundError` from a
missing file, parse errors from unreadable content. -/
inductive LoadError where
  | notFound : LoadError
  | parseError : LoadError
deriving DecidableEq, Repr

/-- A tabular (CSV) source as the external reader sees it: whether the
file is present, whether its bytes parse as CSV, and the parsed header
and rows when they do. -/
structure CsvSource where
  present : Bool
  wellFormed : Bool
  header : List String
  rows : List (List String)
deriving DecidableEq, Repr

/-- A structured (JSON) source with parsed payload `α`. -/
structure JsonSource (α : Type) where
  present : Bool
  wellFormed : Bool
  content : α

/-- Model of the external library call `pandas.read_csv`: raises on a
missing or unparsable file and otherwise returns the parsed table as-is;
it performs no schema validation of its own. -/
def read_csv (src : CsvSource) :
    Except LoadError (List String × List (List String)) :=
  if src.present = false then Except.error LoadError.notFound
  else if src.wellFormed = false then Except.error LoadError.parseError
  else Except.ok (src.header, src.rows)

/-- Model of the external library call `json.load`: raises on a missing
or unparsable file and otherwise returns the parsed document as-is, with
no key validation. -/
def json_load {α : Type} (src : JsonSource α) : Except LoadError α :=
  if src.present = false then Except.error LoadError.notFound
  else if src.wellFormed = false then Except.error LoadError.parseError
  else Except.ok src.content

/-- Embedding of `load_data` (src/recommender.py lines 5-16): read the
CSV, then the JSON, propagating reader errors; the function body adds no
validation of columns or keys. -/
def load_data {α : Type} (ratingSrc : CsvSource) (metaSrc : JsonSource α) :
    Except LoadError ((List String × List (List String)) × α) :=
  match read_csv ratingSrc with
  | Except.error e => Except.error e
  | Except.ok df =>
    match json_load metaSrc with
    | Except.error e => Except.error e
    | Except.ok m => Except.ok (df, m)

/-- Exact dot product of two rating vectors (trailing entries beyond the
shorter vector contribute nothing; all vectors compared have equal
length). -/
def dotQ : List ℚ → List ℚ → ℚ
  | x :: xs, y :: ys => x * y + dotQ xs ys
  | _, _ => 0

/-- Column labels of the pivoted matrix: distinct user ids, sorted
ascending as `pivot_table` does. -/
def usersSorted (table : List Rating) : List String :=
  sortStr (uniqueFirst (table.map Rating.user))

/-- Row labels of the pivoted (transposed) matrix: distinct item ids,
sorted ascending as `pivot_table` does. -/
def itemsSorted (table : List Rating) : List String :=
  sortStr (uniqueFirst (table.map Rating.item))

/-- One cell of the pivoted matrix: `pivot_table`'s default mean
aggregation over the records matching (user, item), with `fillna(0)` for
an empty group (in ℚ, `0 / 0 = 0`). -/
def ratingOf (table : List Rating) (u i : String) : ℚ :=
  let rs := ((table.filter (fun r => r.user = u ∧ r.item = i)).map
    Rating.rating)
  rs.sum / (rs.length : ℚ)

/-- Item `i`'s row of the item-user matrix (`pivot_df.T`). -/
def itemVector (table : List Rating) (i : String) : List ℚ :=
  (usersSorted table).map (fun u => ratingOf table u i)

/-- Model of one cell of `sklearn.metrics.pairwise.cosine_similarity`:
`dot(v, w) / (norm v * norm w)`, except that a zero-norm vector is left
unnormalised by sklearn, making every similarity involving it 0.
Real-valued because the norms are irrational in general. -/
noncomputable def cosineSim (v w : List ℚ) : ℝ :=
  if dotQ v v = 0 ∨ dotQ w w = 0 then 0
  else ((dotQ v w : ℚ) : ℝ) /
    (Real.sqrt ((dotQ v v : ℚ) : ℝ) * Real.sqrt ((dotQ w w : ℚ) : ℝ))

/-- Cell (i, j) of the matrix produced by `create_item_similarity_matrix`
(src/recommender.py lines 19-41). -/
noncomputable def itemSimilarity (table : List Rating) (i j : String) : ℝ :=
  cosineSim (itemVector table i) (itemVector table j)

/-- Euclidean norm of item `i`'s row of the item-user matrix. -/
noncomputable def rowNorm (table : List Rating) (i : String) : ℝ :=
  Real.sqrt ((dotQ (itemVector table i) (itemVector table i) : ℚ) : ℝ)

/-- The full similarity DataFrame returned by
`create_item_similarity_matrix`: indexed by the sorted distinct item ids,
with cosine-similarity entries. -/
noncomputable def buildSimMatrix (table : List Rating) : SimMatrix ℝ :=
  ⟨itemsSorted table, itemSimilarity table⟩

/-- The §3 assumption of at most one rating per (user, item) pair
(duplicates are undefined behaviour). -/
def pairsNodup (table : List Rating) : Prop :=
  (table.map (fun r => (r.user, r.item))).Nodup

instance {α : Type} [LinearOrder α] : IsTotal (String × α) descRel :=
  ⟨fun p q => le_total q.2 p.2⟩

instance {α : Type} [LinearOrder α] : IsTrans (String × α) descRel :=
  ⟨fun _ _ _ h1 h2 => le_trans h2 h1⟩

theorem mem_uniqueFirstAux (seen l : List String) (x : String) :
    x ∈ uniqueFirstAux seen l ↔ x ∈ l ∧ x ∉ seen := by
  induction l generalizing seen with
  | nil => simp [uniqueFirstAux]
  | cons y rest ih =>
    by_cases hy : y ∈ seen
    · simp only [uniqueFirstAux, if_pos hy, ih, List.mem_cons]
      constructor
      · intro h
        exact ⟨Or.inr h.1, h.2⟩
      · intro h
        rcases h.1 with hx | hx
        · exact absurd (hx ▸ hy) h.2
        · exact ⟨hx, h.2⟩
    · simp only [uniqueFirstAux, if_neg hy, List.mem_cons, ih]
      by_cases hxy : x = y
      · subst hxy
        simp [hy]
      · simp only [hxy, false_or]

theorem mem_uniqueFirst (l : List String) (x : String) :
    x ∈ uniqueFirst l ↔ x ∈ l := by
  simp [uniqueFirst, mem_uniqueFirstAux]

theorem nodup_uniqueFirstAux (seen l : List String) :
    (uniqueFirstAux seen l).Nodup := by
  induction l generalizing seen with
  | nil => simp [uniqueFirstAux]
  | cons y rest ih =>
    by_cases hy : y ∈ seen
    · simpa [uniqueFirstAux, if_pos hy] using ih seen
    · simp only [uniqueFirstAux, if_neg hy]
      refine List.nodup_cons.mpr ⟨fun hmem => ?_, ih (y :: seen)⟩
      exact ((mem_uniqueFirstAux _ _ _).mp hmem).2 (List.mem_cons_self _ _)

theorem nodup_uniqueFirst (l : List String) : (uniqueFirst l).Nodup :=
  nodup_uniqueFirstAux [] l

theorem sortStr_perm (l : List String) : List.Perm (sortStr l) l :=
  List.perm_insertionSort _ l

theorem mem_sortStr (l : List String) (x : String) :
    x ∈ sortStr l ↔ x ∈ l :=
  (sortStr_perm l).mem_iff

theorem sortPairsDesc_perm {α : Type} [LinearOrder α]
    (l : List (String × α)) : List.Perm (sortPairsDesc l) l :=
  List.perm_insertionSort _ l

theorem sortPairsDesc_sorted {α : Type} [LinearOrder α]
    (l : List (String × α)) :
    (sortPairsDesc l).Pairwise (fun p q => q.2 ≤ p.2) :=
  List.sorted_insertionSort descRel l

theorem getScore_updateScore {α : Type} [AddCommMonoid α]
    (sc : List (String × α)) (k : String) (v : α) (c : String) :
    getScore (updateScore sc k v) c
      = getScore sc c + if c = k then v else 0 := by
  induction sc with
  | nil =>
    by_cases h : c = k
    · subst h; simp [updateScore, getScore]
    · have h2 : ¬ k = c := fun hh => h hh.symm
      simp [updateScore, getScore, h, h2]
  | cons p rest ih =>
    by_cases hpk : p.1 = k
    · subst hpk
      by_cases hpc : p.1 = c
      · subst hpc
        simp [updateScore, getScore]
      · have h2 : ¬ c = p.1 := fun h => hpc h.symm
        simp [updateScore, getScore, hpc, h2]
    · by_cases hpc : p.1 = c
      · subst hpc
        have h2 : ¬ p.1 = k := hpk
        simp [updateScore, getScore, hpk]
      · simp [updateScore, getScore, hpk, hpc, ih]

theorem keys_updateScore {α : Type} [AddCommMonoid α]
    (sc : List (String × α)) (k : String) (v : α) (x : String) :
    x ∈ (updateScore sc k v).map Prod.fst ↔
      x ∈ sc.map Prod.fst ∨ x = k := by
  induction sc with
  | nil => simp [updateScore]
  | cons p rest ih =>
    by_cases hpk : p.1 = k
    · subst hpk
      have hstep : updateScore (p :: rest) p.1 v = (p.1, p.2 + v) :: rest := by
        simp [updateScore]
      rw [hstep]
      simp only [List.map_cons, List.mem_cons]
      tauto
    · simp only [updateScore, if_neg hpk, List.map_cons, List.mem_cons, ih]
      tauto

theorem getScore_accumulate {α : Type} [AddCommMonoid α]
    (sc l : List (String × α)) (c : String) :
    getScore (accumulate sc l) c
      = getScore sc c + (l.map (fun p => if c = p.1 then p.2 else 0)).sum := by
  induction l generalizing sc with
  | nil => simp [accumulate]
  | cons p l ih =>
    have h1 : accumulate sc (p :: l) = accumulate (updateScore sc p.1 p.2) l :=
      rfl
    rw [h1, ih, getScore_updateScore, List.map_cons, List.sum_cons, add_assoc]

theorem keys_accumulate {α : Type} [AddCommMonoid α]
    (sc l : List (String × α)) (x : String) :
    x ∈ (accumulate sc l).map Prod.fst ↔
      x ∈ sc.map Prod.fst ∨ x ∈ l.map Prod.fst := by
  induction l generalizing sc with
  | nil => simp [accumulate]
  | cons p l ih =>
    have h1 : accumulate sc (p :: l) = accumulate (updateScore sc p.1 p.2) l :=
      rfl
    rw [h1]
    simp only [ih, keys_updateScore, List.map_cons, List.mem_cons]
    tauto

theorem nodup_keys_updateScore {α : Type} [AddCommMonoid α]
    (sc : List (String × α)) (k : String) (v : α)
    (h : (sc.map Prod.fst).Nodup) :
    ((updateScore sc k v).map Prod.fst).Nodup := by
  induction sc with
  | nil => simp [updateScore]
  | cons p rest ih =>
    simp only [List.map_cons] at h
    have h' := List.nodup_cons.mp h
    by_cases hpk : p.1 = k
    · subst hpk
      have hstep : updateScore (p :: rest) p.1 v = (p.1, p.2 + v) :: rest := by
        simp [updateScore]
      rw [hstep]
      simp only [List.map_cons]
      exact h
    · have hstep : updateScore (p :: rest) k v = p :: updateScore rest k v := by
        simp [updateScore, hpk]
      rw [hstep]
      simp only [List.map_cons]
      refine List.nodup_cons.mpr ⟨fun hmem => ?_, ih h'.2⟩
      rcases (keys_updateScore rest k v p.1).mp hmem with hc | hc
      · exact h'.1 hc
      · exact hpk hc

theorem nodup_keys_accumulate {α : Type} [AddCommMonoid α]
    (sc l : List (String × α)) (h : (sc.map Prod.fst).Nodup) :
    ((accumulate sc l).map Prod.fst).Nodup := by
  induction l generalizing sc with
  | nil => simpa [accumulate] using h
  | cons p l ih =>
    have h1 : accumulate sc (p :: l) = accumulate (updateScore sc p.1 p.2) l :=
      rfl
    rw [h1]
    exact ih _ (nodup_keys_updateScore sc p.1 p.2 h)

theorem filter_fst_map_pair {α : Type} (g : String → α) (t : String)
    (l : List String) :
    (l.map (fun i => (i, g i))).filter (fun p => p.1 ≠ t)
      = (l.filter (fun i => i ≠ t)).map (fun i => (i, g i)) := by
  induction l with
  | nil => rfl
  | cons a l ih =>
    simp only [ne_eq, decide_not] at ih ⊢
    simp only [List.map_cons, List.filter_cons]
    by_cases h : a = t
    · simp [h, ih]
    · simp [h, ih]

theorem sum_ite_key {α : Type} [AddCommMonoid α] (l : List String)
    (hnd : l.Nodup) (c : String) (h : String → α) :
    (l.map (fun i => if c = i then h i else 0)).sum
      = if c ∈ l then h c else 0 := by
  induction l with
  | nil => simp
  | cons a l ih =>
    have h' := List.nodup_cons.mp hnd
    by_cases hca : c = a
    · subst hca
      have hz : (l.map (fun i => if c = i then h i else 0)).sum = 0 := by
        refine List.sum_eq_zero fun x hx => ?_
        rcases List.mem_map.mp hx with ⟨i, hi, rfl⟩
        have : ¬ c = i := fun hh => h'.1 (hh ▸ hi)
        simp [this]
      simp [hz]
    · simp [hca, ih h'.2]

theorem keys_favContribution {α : Type} [LinearOrder α]
    (M : SimMatrix α) (fav x : String)
    (h : x ∈ (favContribution M fav).map Prod.fst) : x ∈ M.index := by
  rcases List.mem_map.mp h with ⟨p, hp, rfl⟩
  have hp2 : p ∈ sortPairsDesc (M.index.map (fun i => (i, M.score i fav))) :=
    List.mem_of_mem_filter hp
  have hp3 : p ∈ M.index.map (fun i => (i, M.score i fav)) :=
    (sortPairsDesc_perm _).mem_iff.mp hp2
  rcases List.mem_map.mp hp3 with ⟨i, hi, rfl⟩
  exact hi

theorem favContribution_sum {α : Type} [LinearOrder α] [AddCommMonoid α]
    (M : SimMatrix α) (fav c : String) (hnd : M.index.Nodup) :
    ((favContribution M fav).map (fun p => if c = p.1 then p.2 else 0)).sum
      = if c ∈ M.index ∧ c ≠ fav then M.score c fav else 0 := by
  have hperm :
      List.Perm
        ((favContribution M fav).map (fun p => if c = p.1 then p.2 else 0))
        (((M.index.map (fun i => (i, M.score i fav))).filter
            (fun p => p.1 ≠ fav)).map
          (fun p => if c = p.1 then p.2 else 0)) :=
    (((sortPairsDesc_perm _).filter _).map _)
  rw [hperm.sum_eq, filter_fst_map_pair, List.map_map]
  have hcomp :
      ((fun p : String × α => if c = p.1 then p.2 else 0) ∘
          fun i => (i, M.score i fav))
        = fun i => if c = i then M.score i fav else 0 := rfl
  rw [hcomp, sum_ite_key _ (hnd.filter _) c (fun i => M.score i fav)]
  by_cases hc : c ∈ M.index ∧ c ≠ fav
  · rw [if_pos (List.mem_filter.mpr ⟨hc.1, by simp [hc.2]⟩), if_pos hc]
  · rw [if_neg (fun hmem => hc ?_), if_neg hc]
    have h1 := List.mem_filter.mp hmem
    exact ⟨h1.1, by simpa using h1.2⟩

theorem getScore_candidateScores_aux {α : Type} [LinearOrder α]
    [AddCommMonoid α] (M : SimMatrix α) (hnd : M.index.Nodup)
    (favs : List String) (sc : List (String × α)) (c : String) :
    getScore
        (favs.foldl
          (fun sc fav =>
            if fav ∈ M.index then accumulate sc (favContribution M fav)
            else sc)
          sc) c
      = getScore sc c +
        (favs.map
          (fun f =>
            if f ∈ M.index ∧ c ∈ M.index ∧ c ≠ f then M.score c f
            else 0)).sum := by
  induction favs generalizing sc with
  | nil => simp
  | cons f favs ih =>
    rw [List.foldl_cons, ih, List.map_cons, List.sum_cons]
    by_cases hf : f ∈ M.index
    · rw [if_pos hf, getScore_accumulate, favContribution_sum M f c hnd]
      by_cases hc : c ∈ M.index ∧ c ≠ f
      · rw [if_pos hc, if_pos ⟨hf, hc⟩, add_assoc]
      · rw [if_neg hc, if_neg (fun hx => hc hx.2), add_zero, zero_add]
    · rw [if_neg hf, if_neg (fun hx => hf hx.1), zero_add]

theorem getScore_candidateScores {α : Type} [LinearOrder α]
    [AddCommMonoid α] (M : SimMatrix α) (hnd : M.index.Nodup)
    (favs : List String) (c : String) :
    getScore (candidateScores M favs) c
      = (favs.map
          (fun f =>
            if f ∈ M.index ∧ c ∈ M.index ∧ c ≠ f then M.score c f
            else 0)).sum := by
  have h := getScore_candidateScores_aux M hnd favs [] c
  simpa [candidateScores, getScore] using h

theorem keys_candidateScores_aux {α : Type} [LinearOrder α]
    [AddCommMonoid α] (M : SimMatrix α) (favs : List String)
    (sc : List (String × α)) (x : String)
    (h : x ∈
      (favs.foldl
        (fun sc fav =>
          if fav ∈ M.index then accumulate sc (favContribution M fav)
          else sc)
        sc).map Prod.fst) :
    x ∈ sc.map Prod.fst ∨ x ∈ M.index := by
  induction favs generalizing sc with
  | nil => exact Or.inl h
  | cons f favs ih =>
    rw [List.foldl_cons] at h
    rcases ih _ h with hx | hx
    · by_cases hf : f ∈ M.index
      · rw [if_pos hf] at hx
        rcases (keys_accumulate _ _ _).mp hx with hx' | hx'
        · exact Or.inl hx'
        · exact Or.inr (keys_favContribution M f x hx')
      · rw [if_neg hf] at hx
        exact Or.inl hx
    · exact Or.inr hx

theorem keys_candidateScores {α : Type} [LinearOrder α] [AddCommMonoid α]
    (M : SimMatrix α) (favs : List String) (x : String)
    (h : x ∈ (candidateScores M favs).map Prod.fst) : x ∈ M.index := by
  rcases keys_candidateScores_aux M favs [] x h with hx | hx
  · simp at hx
  · exact hx

theorem nodup_keys_candidateScores_aux {α : Type} [LinearOrder α]
    [AddCommMonoid α] (M : SimMatrix α) (favs : List String)
    (sc : List (String × α)) (h : (sc.map Prod.fst).Nodup) :
    ((favs.foldl
        (fun sc fav =>
          if fav ∈ M.index then accumulate sc (favContribution M fav)
          else sc)
        sc).map Prod.fst).Nodup := by
  induction favs generalizing sc with
  | nil => exact h
  | cons f favs ih =>
    rw [List.foldl_cons]
    by_cases hf : f ∈ M.index
    · rw [if_pos hf]
      exact ih _ (nodup_keys_accumulate _ _ h)
    · rw [if_neg hf]
      exact ih _ h

theorem nodup_keys_candidateScores {α : Type} [LinearOrder α]
    [AddCommMonoid α] (M : SimMatrix α) (favs : List String) :
    ((candidateScores M favs).map Prod.fst).Nodup :=
  nodup_keys_candidateScores_aux M favs [] (by simp)

theorem keys_removeRated_step_subset {α : Type} [AddCommMonoid α]
    (s : List (String × α)) (i x : String)
    (h : x ∈
      (if i ∈ s.map Prod.fst then s.filter (fun p => p.1 ≠ i)
       else s).map Prod.fst) :
    x ∈ s.map Prod.fst := by
  by_cases hi : i ∈ s.map Prod.fst
  · rw [if_pos hi] at h
    rcases List.mem_map.mp h with ⟨p, hp, rfl⟩
    exact List.mem_map.mpr ⟨p, List.mem_of_mem_filter hp, rfl⟩
  · rwa [if_neg hi] at h

theorem not_mem_keys_step_self {α : Type} [AddCommMonoid α]
    (s : List (String × α)) (i : String) :
    i ∉
      (if i ∈ s.map Prod.fst then s.filter (fun p => p.1 ≠ i)
       else s).map Prod.fst := by
  by_cases hi : i ∈ s.map Prod.fst
  · rw [if_pos hi]
    intro h
    rcases List.mem_map.mp h with ⟨p, hp, rfl⟩
    have := (List.mem_filter.mp hp).2
    simp at this
  · rw [if_neg hi]
    exact hi

theorem keys_removeRated_subset {α : Type} [AddCommMonoid α]
    (sc : List (String × α)) (rated : List String) (x : String)
    (h : x ∈ (removeRated sc rated).map Prod.fst) :
    x ∈ sc.map Prod.fst := by
  induction rated generalizing sc with
  | nil => exact h
  | cons i rated ih =>
    rw [removeRated, List.foldl_cons] at h
    exact keys_removeRated_step_subset sc i x (ih _ h)

theorem not_mem_keys_removeRated {α : Type} [AddCommMonoid α]
    (sc : List (String × α)) (rated : List String) (x : String)
    (hx : x ∈ rated) : x ∉ (removeRated sc rated).map Prod.fst := by
  induction rated generalizing sc with
  | nil => simp at hx
  | cons i rated ih =>
    rw [removeRated, List.foldl_cons]
    rcases List.mem_cons.mp hx with hxi | hxr
    · subst hxi
      intro hmem
      exact not_mem_keys_step_self sc x
        (keys_removeRated_subset _ rated x hmem)
    · exact ih _ hxr

theorem nodup_keys_removeRated {α : Type} [AddCommMonoid α]
    (sc : List (String × α)) (rated : List String)
    (h : (sc.map Prod.fst).Nodup) :
    ((removeRated sc rated).map Prod.fst).Nodup := by
  induction rated generalizing sc with
  | nil => exact h
  | cons i rated ih =>
    rw [removeRated, List.foldl_cons]
    refine ih _ ?_
    by_cases hi : i ∈ sc.map Prod.fst
    · rw [if_pos hi]
      exact ((List.filter_sublist sc).map Prod.fst).nodup h
    · rwa [if_neg hi]

theorem removeRated_nil {α : Type} [AddCommMonoid α] (rated : List String) :
    removeRated ([] : List (String × α)) rated = [] := by
  induction rated with
  | nil => rfl
  | cons i rated ih => simpa [removeRated, List.foldl_cons] using ih

theorem mem_recommend_for_user_keys {α : Type} [LinearOrder α]
    [AddCommMonoid α] (M : SimMatrix α) (user : String)
    (table : List Rating) (n : ℕ) (x : String)
    (h : x ∈ recommend_for_user user table M n) :
    x ∈ (removeRated (candidateScores M (favoritesOf table user))
          (uniqueFirst ((userRatingsOf table user).map Rating.item))).map
        Prod.fst := by
  simp only [recommend_for_user] at h
  by_cases he : (userRatingsOf table user).isEmpty = true
  · rw [if_pos he] at h
    exact absurd h (List.not_mem_nil x)
  · rw [if_neg he] at h
    rcases List.mem_map.mp h with ⟨p, hp, rfl⟩
    have hp2 := (List.take_sublist n _).subset hp
    have hp3 := (sortPairsDesc_perm _).mem_iff.mp hp2
    exact List.mem_map.mpr ⟨p, hp3, rfl⟩

theorem recommend_for_user_nodup {α : Type} [LinearOrder α]
    [AddCommMonoid α] (M : SimMatrix α) (user : String)
    (table : List Rating) (n : ℕ) :
    (recommend_for_user user table M n).Nodup := by
  simp only [recommend_for_user]
  by_cases he : (userRatingsOf table user).isEmpty = true
  · rw [if_pos he]
    exact List.nodup_nil
  · rw [if_neg he]
    have h1 : ((removeRated (candidateScores M (favoritesOf table user))
        (uniqueFirst ((userRatingsOf table user).map Rating.item))).map
          Prod.fst).Nodup :=
      nodup_keys_removeRated _ _ (nodup_keys_candidateScores M _)
    have h2 : ((sortPairsDesc (removeRated
        (candidateScores M (favoritesOf table user))
        (uniqueFirst ((userRatingsOf table user).map Rating.item)))).map
          Prod.fst).Nodup :=
      ((sortPairsDesc_perm _).map Prod.fst).nodup_iff.mpr h1
    rw [List.map_take]
    exact h2.sublist (List.take_sublist n _)

theorem mem_recommend_for_user_index {α : Type} [LinearOrder α]
    [AddCommMonoid α] (M : SimMatrix α) (user : String)
    (table : List Rating) (n : ℕ) (x : String)
    (h : x ∈ recommend_for_user user table M n) : x ∈ M.index :=
  keys_candidateScores M _ x
    (keys_removeRated_subset _ _ x
      (mem_recommend_for_user_keys M user table n x h))

/-- A small concrete similarity matrix used by concrete instantiations. -/
def demoMatrix : SimMatrix ℤ :=
  ⟨["A", "B", "C"],
   fun i j => if i = j then 10 else if i = "B" ∨ j = "B" then 5 else 2⟩

/-- A small concrete rating table used by concrete instantiations. -/
def demoTable : List Rating :=
  [⟨"U1", "A", 5⟩, ⟨"U1", "B", 2⟩, ⟨"U2", "C", 4⟩]

/-- C1: for every target item present in the similarity matrix and every
top_n, `recommend_items` (`similar_items`) returns exactly the item ids of
the target's similarity row with the target itself removed, arranged in
some order that is descending by similarity score, truncated to the first
top_n entries; in particular the queried item never appears in the
output. -/
theorem similar_items_top_spec {α : Type} [LinearOrder α] (M : SimMatrix α)
    (target : String) (n : ℕ) (h : target ∈ M.index) :
    (∃ l : List (String × α),
        List.Perm l ((M.index.filter (fun i => i ≠ target)).map
          (fun i => (i, M.score i target)))
        ∧ l.Pairwise (fun p q => q.2 ≤ p.2)
        ∧ recommend_items target M n = (l.take n).map Prod.fst)
    ∧ target ∉ recommend_items target M n := by
  constructor
  · refine ⟨sortPairsDesc ((M.index.map (fun i => (i, M.score i target))).filter
      (fun p => p.1 ≠ target)), ?_, ?_, ?_⟩
    · have hp := sortPairsDesc_perm ((M.index.map
        (fun i => (i, M.score i target))).filter (fun p => p.1 ≠ target))
      nth_rewrite 2 [filter_fst_map_pair] at hp
      exact hp
    · exact sortPairsDesc_sorted _
    · simp only [recommend_items]
      rw [if_pos h]
  · intro hmem
    simp only [recommend_items] at hmem
    rw [if_pos h] at hmem
    rcases List.mem_map.mp hmem with ⟨p, hp, hfst⟩
    have hp2 := (List.take_sublist n _).subset hp
    have hp3 := (sortPairsDesc_perm _).mem_iff.mp hp2
    have hne := (List.mem_filter.mp hp3).2
    simp only [ne_eq, decide_not, Bool.not_eq_eq_eq_not, Bool.not_true,
      decide_eq_false_iff_not] at hne
    exact hne hfst

/-- Witness for C1: the theorem instantiated at a concrete matrix. -/
theorem similar_items_top_spec_witness :
    "A" ∈ demoMatrix.index
    ∧ ((∃ l : List (String × ℤ),
          List.Perm l ((demoMatrix.index.filter (fun i => i ≠ "A")).map
            (fun i => (i, demoMatrix.score i "A")))
          ∧ l.Pairwise (fun p q => q.2 ≤ p.2)
          ∧ recommend_items "A" demoMatrix 2 = (l.take 2).map Prod.fst)
        ∧ "A" ∉ recommend_items "A" demoMatrix 2) :=
  ⟨by decide, similar_items_top_spec demoMatrix "A" 2 (by decide)⟩

/-- C5: for every target item absent from the similarity matrix index and
every top_n, `recommend_items` (`similar_items`) returns the empty list
(and, being a total function, raises no error). -/
theorem similar_items_unknown {α : Type} [LinearOrder α] (M : SimMatrix α)
    (target : String) (n : ℕ) (h : target ∉ M.index) :
    recommend_items target M n = [] := by
  simp only [recommend_items]
  rw [if_neg h]

/-- Witness for C5: an unknown id on a concrete matrix yields `[]`. -/
theorem similar_items_unknown_witness :
    "UNKNOWN_ID" ∉ demoMatrix.index
    ∧ recommend_items "UNKNOWN_ID" demoMatrix 3 = [] :=
  ⟨by decide, similar_items_unknown demoMatrix "UNKNOWN_ID" 3 (by decide)⟩

/-- C2: no item id returned by `recommend_for_user` is an item the target
user has rated in the rating table, at any rating value. -/
theorem recommend_for_user_not_rated {α : Type} [LinearOrder α]
    [AddCommMonoid α] (M : SimMatrix α) (user : String)
    (table : List Rating) (n : ℕ) (r : Rating) (hr : r ∈ table)
    (hu : r.user = user) :
    r.item ∉ recommend_for_user user table M n := by
  intro hmem
  have hkeys := mem_recommend_for_user_keys M user table n r.item hmem
  have hrated : r.item ∈ uniqueFirst ((userRatingsOf table user).map
      Rating.item) := by
    rw [mem_uniqueFirst]
    exact List.mem_map.mpr
      ⟨r, List.mem_filter.mpr ⟨hr, by simp [hu]⟩, rfl⟩
  exact not_mem_keys_removeRated _ _ _ hrated hkeys

/-- Witness for C2: "B" is rated by U1 and never recommended to U1. -/
theorem recommend_for_user_not_rated_witness :
    ((⟨"U1", "B", 2⟩ : Rating) ∈ demoTable
      ∧ (⟨"U1", "B", 2⟩ : Rating).user = "U1")
    ∧ "B" ∉ recommend_for_user "U1" demoTable demoMatrix 3 :=
  ⟨⟨by decide, rfl⟩,
   recommend_for_user_not_rated demoMatrix "U1" demoTable 3
     ⟨"U1", "B", 2⟩ (by decide) rfl⟩

/-- C4: for a user with no rating record, and for a user all of whose
ratings are strictly below 4.0, `recommend_for_user` returns the empty
list for every top_n.  The single hypothesis covers both cases (it holds
vacuously for a user with no ratings). -/
theorem recommend_for_user_no_favorites {α : Type} [LinearOrder α]
    [AddCommMonoid α] (M : SimMatrix α) (user : String)
    (table : List Rating) (n : ℕ)
    (h : ∀ r ∈ table, r.user = user → r.rating < 4) :
    recommend_for_user user table M n = [] := by
  have hfilter : (userRatingsOf table user).filter
      (fun r => 4 ≤ r.rating) = [] := by
    rw [List.filter_eq_nil_iff]
    intro r hrmem
    have h1 := List.mem_filter.mp hrmem
    have h2 : r.rating < 4 := h r h1.1 (by simpa using h1.2)
    simp [not_le.mpr h2]
  have hfav : favoritesOf table user = [] := by
    rw [favoritesOf, hfilter]
    rfl
  simp only [recommend_for_user]
  by_cases he : (userRatingsOf table user).isEmpty = true
  · rw [if_pos he]
  · rw [if_neg he, hfav]
    have h1 : candidateScores M ([] : List String) = [] := rfl
    rw [h1, removeRated_nil]
    simp [sortPairsDesc, List.insertionSort]

/-- Witness for C4: a user whose single rating is below 4.0 gets an empty
recommendation list. -/
theorem recommend_for_user_no_favorites_witness :
    (∀ r ∈ [(⟨"U1", "A", 3⟩ : Rating)], r.user = "U1" → r.rating < 4)
    ∧ recommend_for_user "U1" [(⟨"U1", "A", 3⟩ : Rating)] demoMatrix 3
        = [] :=
  ⟨by decide,
   recommend_for_user_no_favorites demoMatrix "U1"
     [⟨"U1", "A", 3⟩] 3 (by decide)⟩

/-- C10 (implicit): for every user and every top_n, the list returned by
`recommend_for_user` over the similarity matrix built from the rating
table contains no duplicate item ids, and every returned item id occurs
as an item of the rating table (it is in the similarity matrix index). -/
theorem recommend_for_user_nodup_and_known (table : List Rating)
    (user : String) (n : ℕ) :
    (recommend_for_user user table (buildSimMatrix table) n).Nodup
    ∧ ∀ x ∈ recommend_for_user user table (buildSimMatrix table) n,
        x ∈ table.map Rating.item := by
  constructor
  · exact recommend_for_user_nodup _ user table n
  · intro x hx
    have h1 : x ∈ (buildSimMatrix table).index :=
      mem_recommend_for_user_index _ user table n x hx
    have h2 : x ∈ itemsSorted table := h1
    rw [itemsSorted, mem_sortStr, mem_uniqueFirst] at h2
    exact h2

/-- C3: in `recommend_for_user`, the accumulated score of each candidate
item equals the sum, over the user's distinct favourites (items rated at
or above 4.0) that are present in the similarity matrix, of the
similarity between the favourite and the candidate, with each
favourite's own row entry for itself excluded; aggregation is additive
across favourites, not averaged. -/
theorem candidate_scores_additive {α : Type} [LinearOrder α]
    [AddCommMonoid α] (M : SimMatrix α) (table : List Rating)
    (user c : String) (hnd : M.index.Nodup) :
    getScore (candidateScores M (favoritesOf table user)) c
      = ((favoritesOf table user).map
          (fun f =>
            if f ∈ M.index ∧ c ∈ M.index ∧ c ≠ f then M.score c f
            else 0)).sum :=
  getScore_candidateScores M hnd (favoritesOf table user) c

/-- Witness for C3: the accumulated score of candidate "A" for user U2 on
the concrete inputs. -/
theorem candidate_scores_additive_witness :
    demoMatrix.index.Nodup
    ∧ getScore (candidateScores demoMatrix (favoritesOf demoTable "U2")) "A"
        = ((favoritesOf demoTable "U2").map
            (fun f =>
              if f ∈ demoMatrix.index ∧ "A" ∈ demoMatrix.index ∧ "A" ≠ f
              then demoMatrix.score "A" f
              else 0)).sum :=
  ⟨by decide,
   candidate_scores_additive demoMatrix demoTable "U2" "A" (by decide)⟩

theorem get_item_metadata_eq_find (meta : TravelMeta) (iid : String) :
    get_item_metadata iid meta
      = (allCatalogItems meta).find? (fun it => it.id == iid) := by
  induction meta with
  | nil => rfl
  | cons c rest ih =>
    simp only [get_item_metadata, allCatalogItems, List.find?_append]
    cases h : c.2.find? (fun it => it.id == iid) with
    | none => simp [h, ih]
    | some it => simp [h]

theorem get_items_info_aux (meta : TravelMeta) (ids : List String)
    (acc : List ItemInfo) :
    ids.foldl
        (fun results iid =>
          match get_item_metadata iid meta with
          | some info => results ++ [info]
          | none => results)
        acc
      = acc ++ ids.filterMap (fun iid => get_item_metadata iid meta) := by
  induction ids generalizing acc with
  | nil => simp
  | cons i ids ih =>
    rw [List.foldl_cons]
    cases h : get_item_metadata i meta with
    | none =>
      simp only [h]
      rw [ih]
      simp [List.filterMap_cons, h]
    | some info =>
      simp only [h]
      rw [ih]
      simp [List.filterMap_cons, h]

/-- C9: `get_items_info` (resolve_items) returns the resolved records in
the same relative order as the input ids, silently skipping every id with
no matching record (it equals a `filterMap` over the input list); and
`get_item_metadata` (resolve_one) returns the first record whose id field
matches, scanning categories in catalog iteration order, or `none` if no
record matches (it equals `find?` over the flattened catalog). -/
theorem metadata_resolution_spec (ids : List String) (meta : TravelMeta) :
    get_items_info ids meta
        = ids.filterMap (fun iid => get_item_metadata iid meta)
    ∧ ∀ iid : String,
        get_item_metadata iid meta
          = (allCatalogItems meta).find? (fun it => it.id == iid) := by
  constructor
  · have h := get_items_info_aux meta ids []
    simpa [get_items_info] using h
  · intro iid
    exact get_item_metadata_eq_find meta iid

/-- Counterexample for C8: a present, well-formed CSV source whose header
lacks all of the required columns {user_id, item_id, rating} is accepted
by `load_data`, which returns it unchanged instead of failing — the
missing-column failure the claim describes would only surface later, in
`create_item_similarity_matrix`'s pivot. -/
theorem load_data_no_schema_validation :
    ("user_id" ∉ (CsvSource.mk true true ["foo"] [["1"]]).header
      ∧ "item_id" ∉ (CsvSource.mk true true ["foo"] [["1"]]).header
      ∧ "rating" ∉ (CsvSource.mk true true ["foo"] [["1"]]).header)
    ∧ load_data (CsvSource.mk true true ["foo"] [["1"]])
        (JsonSource.mk true true ([] : TravelMeta))
      = Except.ok ((["foo"], [["1"]]), ([] : TravelMeta)) := by
  exact ⟨by decide, rfl⟩

/-- C8 amended: `load_data` fails with a NotFound error when either
source file is missing and a ParseError when either is present but
unreadable, in reading order; when both read successfully it returns
both parsed contents unmodified, performing no schema validation of
required columns or keys (missing columns surface later, at
similarity-build time). -/
theorem load_data_error_spec {α : Type} (r : CsvSource)
    (m : JsonSource α) :
    (r.present = false → load_data r m = Except.error LoadError.notFound)
    ∧ (r.present = true → r.wellFormed = false →
        load_data r m = Except.error LoadError.parseError)
    ∧ (r.present = true → r.wellFormed = true → m.present = false →
        load_data r m = Except.error LoadError.notFound)
    ∧ (r.present = true → r.wellFormed = true → m.present = true →
        m.wellFormed = false →
        load_data r m = Except.error LoadError.parseError)
    ∧ (r.present = true → r.wellFormed = true → m.present = true →
        m.wellFormed = true →
        load_data r m = Except.ok ((r.header, r.rows), m.content)) := by
  cases hr1 : r.present <;> cases hr2 : r.wellFormed <;>
    cases hm1 : m.present <;> cases hm2 : m.wellFormed <;>
      simp [load_data, read_csv, json_load, hr1, hr2, hm1, hm2]

/-- Witness for the amended C8: a missing CSV source fails with
NotFound. -/
theorem load_data_error_spec_witness :
    (CsvSource.mk false true [] []).present = false
    ∧ load_data (CsvSource.mk false true [] [])
        (JsonSource.mk true true ([] : TravelMeta))
      = Except.error LoadError.notFound :=
  ⟨rfl, (load_data_error_spec _ _).1 rfl⟩

theorem dotQ_comm (v w : List ℚ) : dotQ v w = dotQ w v := by
  induction v generalizing w with
  | nil => cases w <;> rfl
  | cons x xs ih =>
    cases w with
    | nil => rfl
    | cons y ys => simp [dotQ, ih, mul_comm]

theorem dotQ_self_nonneg (v : List ℚ) : 0 ≤ dotQ v v := by
  induction v with
  | nil => simp [dotQ]
  | cons x xs ih => simpa [dotQ] using add_nonneg (mul_self_nonneg x) ih

theorem dotQ_self_eq_zero (v : List ℚ) :
    dotQ v v = 0 ↔ ∀ x ∈ v, x = 0 := by
  induction v with
  | nil => simp [dotQ]
  | cons x xs ih =>
    simp only [dotQ, List.mem_cons]
    constructor
    · intro h
      have h1 := (add_eq_zero_iff_of_nonneg (mul_self_nonneg x)
        (dotQ_self_nonneg xs)).mp h
      intro y hy
      rcases hy with rfl | hy
      · exact mul_self_eq_zero.mp h1.1
      · exact (ih.mp h1.2) y hy
    · intro h
      have hx : x = 0 := h x (Or.inl rfl)
      have hxs : dotQ xs xs = 0 := ih.mpr (fun y hy => h y (Or.inr hy))
      simp [hx, hxs]

/-- C7: the matrix built by `create_item_similarity_matrix` is symmetric:
for every rating table and every pair of items, similarity(i, j) equals
similarity(j, i). -/
theorem itemSimilarity_symm (table : List Rating) (i j : String) :
    itemSimilarity table i j = itemSimilarity table j i := by
  unfold itemSimilarity cosineSim
  by_cases h : dotQ (itemVector table i) (itemVector table i) = 0
      ∨ dotQ (itemVector table j) (itemVector table j) = 0
  · rw [if_pos h, if_pos h.symm]
  · rw [if_neg h, if_neg (fun hc => h hc.symm)]
    rw [dotQ_comm (itemVector table i) (itemVector table j), mul_comm]

theorem filter_pair_eq (table : List Rating) (r : Rating)
    (hdup : pairsNodup table) (hr : r ∈ table) :
    table.filter (fun s => s.user = r.user ∧ s.item = r.item) = [r] := by
  induction table with
  | nil => cases hr
  | cons s rest ih =>
    have hd := hdup
    simp only [pairsNodup, List.map_cons, List.nodup_cons] at hd
    rcases List.mem_cons.mp hr with heq | hrrest
    · subst heq
      rw [List.filter_cons, if_pos (by simp)]
      have hrest : rest.filter
          (fun t => t.user = r.user ∧ t.item = r.item) = [] := by
        rw [List.filter_eq_nil_iff]
        intro t ht hcondt
        have h2 : t.user = r.user ∧ t.item = r.item := by simpa using hcondt
        exact hd.1 (List.mem_map.mpr ⟨t, ht, by rw [h2.1, h2.2]⟩)
      rw [hrest]
    · rw [List.filter_cons]
      have hcond : ¬ (s.user = r.user ∧ s.item = r.item) := by
        rintro ⟨h1, h2⟩
        exact hd.1 (List.mem_map.mpr ⟨r, hrrest, by rw [h1, h2]⟩)
      rw [if_neg (by simpa using hcond)]
      exact ih hd.2 hrrest

theorem ratingOf_of_mem (table : List Rating) (r : Rating)
    (hdup : pairsNodup table) (hr : r ∈ table) :
    ratingOf table r.user r.item = r.rating := by
  unfold ratingOf
  rw [filter_pair_eq table r hdup hr]
  simp

theorem exists_record_of_ratingOf_ne_zero (table : List Rating)
    (u i : String) (h : ratingOf table u i ≠ 0) :
    ∃ r ∈ table, r.user = u ∧ r.item = i ∧ r.rating ≠ 0 := by
  by_contra hno
  push_neg at hno
  apply h
  simp only [ratingOf]
  have hall : ∀ x ∈ (table.filter
      (fun s => s.user = u ∧ s.item = i)).map Rating.rating, x = 0 := by
    intro x hx
    rcases List.mem_map.mp hx with ⟨s, hs, rfl⟩
    have h1 := List.mem_filter.mp hs
    have h2 : s.user = u ∧ s.item = i := by simpa using h1.2
    exact hno s h1.1 h2.1 h2.2
  rw [List.sum_eq_zero hall, zero_div]

theorem mem_usersSorted (table : List Rating) (r : Rating)
    (hr : r ∈ table) : r.user ∈ usersSorted table := by
  rw [usersSorted, mem_sortStr, mem_uniqueFirst]
  exact List.mem_map.mpr ⟨r, hr, rfl⟩

theorem rowNorm_eq_zero_iff (table : List Rating) (i : String) :
    rowNorm table i = 0
      ↔ dotQ (itemVector table i) (itemVector table i) = 0 := by
  unfold rowNorm
  rw [Real.sqrt_eq_zero (by exact_mod_cast dotQ_self_nonneg _)]
  exact Rat.cast_eq_zero

/-- C6: in the matrix built by `create_item_similarity_matrix`, whenever
either item's row of the item-user matrix has norm 0.0 the similarity is
0.0 (and no division fault occurs — the embedding is total); and, under
the data model's at-most-one-rating-per-pair assumption, the diagonal
entry of item i is 1.0 if some record gives item i a non-zero rating and
0.0 otherwise. -/
theorem itemSimilarity_zero_norm_and_diag (table : List Rating)
    (i j : String) :
    (rowNorm table i = 0 ∨ rowNorm table j = 0 →
        itemSimilarity table i j = 0)
    ∧ (pairsNodup table →
        itemSimilarity table i i
          = if ∃ r ∈ table, r.item = i ∧ r.rating ≠ 0 then 1 else 0) := by
  constructor
  · intro h
    have hd : dotQ (itemVector table i) (itemVector table i) = 0
        ∨ dotQ (itemVector table j) (itemVector table j) = 0 := by
      rcases h with h | h
      · exact Or.inl ((rowNorm_eq_zero_iff table i).mp h)
      · exact Or.inr ((rowNorm_eq_zero_iff table j).mp h)
    unfold itemSimilarity cosineSim
    rw [if_pos hd]
  · intro hdup
    by_cases hd : dotQ (itemVector table i) (itemVector table i) = 0
    · have hnone : ¬ ∃ r ∈ table, r.item = i ∧ r.rating ≠ 0 := by
        rintro ⟨r, hr, hitem, hrat⟩
        subst hitem
        have hentry : ratingOf table r.user r.item ≠ 0 := by
          rw [ratingOf_of_mem table r hdup hr]
          exact hrat
        have hmem : ratingOf table r.user r.item ∈
            itemVector table r.item :=
          List.mem_map.mpr ⟨r.user, mem_usersSorted table r hr, rfl⟩
        exact hentry (((dotQ_self_eq_zero _).mp hd) _ hmem)
      rw [if_neg hnone]
      unfold itemSimilarity cosineSim
      rw [if_pos (Or.inl hd)]
    · have hsome : ∃ r ∈ table, r.item = i ∧ r.rating ≠ 0 := by
        have hnz : ¬ ∀ x ∈ itemVector table i, x = 0 := fun hall =>
          hd ((dotQ_self_eq_zero _).mpr hall)
        push_neg at hnz
        rcases hnz with ⟨x, hxmem, hxne⟩
        rcases List.mem_map.mp hxmem with ⟨u, _, rfl⟩
        rcases exists_record_of_ratingOf_ne_zero table u i hxne
          with ⟨r, hrmem, _, hri, hrr⟩
        exact ⟨r, hrmem, hri, hrr⟩
      rw [if_pos hsome]
      unfold itemSimilarity cosineSim
      rw [if_neg (fun hc => hd (hc.elim id id))]
      rw [Real.mul_self_sqrt (by exact_mod_cast dotQ_self_nonneg _)]
      exact div_self (Rat.cast_ne_zero.mpr hd)

/-- A one-record table used to instantiate C6 concretely. -/
def soloTable : List Rating := [⟨"U1", "A", 5⟩]

/-- Witness for C6: on the one-record table, the unrated item "Z" has a
zero-norm row and similarity 0 with "A", while the rated item "A" has
diagonal similarity 1. -/
theorem itemSimilarity_zero_norm_and_diag_witness :
    rowNorm soloTable "Z" = 0
    ∧ itemSimilarity soloTable "A" "Z" = 0
    ∧ pairsNodup soloTable
    ∧ itemSimilarity soloTable "A" "A" = 1 := by
  have hvec : itemVector soloTable "Z" = [ratingOf soloTable "U1" "Z"] :=
    rfl
  have hrz : ratingOf soloTable "U1" "Z" = 0 := by
    have hf : (soloTable.filter
        (fun r => r.user = "U1" ∧ r.item = "Z")).map Rating.rating = [] :=
      rfl
    unfold ratingOf
    rw [hf]
    simp
  have hdz : dotQ (itemVector soloTable "Z")
      (itemVector soloTable "Z") = 0 := by
    rw [hvec, hrz]
    simp [dotQ]
  have hnorm : rowNorm soloTable "Z" = 0 :=
    (rowNorm_eq_zero_iff soloTable "Z").mpr hdz
  have hdup : pairsNodup soloTable := by
    show (soloTable.map (fun r => (r.user, r.item))).Nodup
    decide
  refine ⟨hnorm, ?_, hdup, ?_⟩
  · exact (itemSimilarity_zero_norm_and_diag soloTable "A" "Z").1
      (Or.inr hnorm)
  · rw [(itemSimilarity_zero_norm_and_diag soloTable "A" "A").2 hdup,
      if_pos (by decide)]

end ChungjuRoad
